import Mathlib

/-!
Verification of the schedule dependency engine of `folga_critica.py`
(DCMA schedule analytics): the relationship-reference parsers, the
slack-chain tracer `rastrear_cadeia`, and the delay-propagation simulator
`simular_atraso_caminho_critico` / `propagar_atraso`.

Modelling conventions:
* A dataframe row becomes a `Tarefa` record; the dataframe index is the
  `idx` field (an `Int`, as in pandas).
* Calendar dates are day numbers (`Int`); `pd.Timedelta(days = k)` is
  integer addition.  Numeric columns (`Folga`, `Duração BL`) are `Int`,
  which is exact for the integer-valued data the claims are about.
* The tracer's loop key can be the initial integer index or a digit
  string produced by successor extraction (Python keeps both in one
  `visited` set); `TKey` models this sum type, `TKey.truthy` models
  Python truthiness of the `while current_idx` guard.
* In-place mutation of the working copy `df_sim` is explicit state
  passing through `SimSt`; the original dataframe `df` is carried
  alongside so that frame (non-mutation) facts are expressible.
* A Python exception escaping `propagar_atraso` (the `df_sim.loc` lookup
  of a missing FF/SF successor raises `KeyError`) is `Option.none`,
  caught by the wrapper's `try/except` as in the source.
* Recursion is fuel-indexed; `rows.length + 1` fuel is what the wrapper
  supplies, and the guards make deeper nesting impossible.
-/

/-- One row of the schedule dataframe. -/
structure Tarefa where
  idx : Int
  nome : String
  inicio : Int
  termino : Int
  duracao : Int
  folga : Int
  sucessoras : Option String
  critica : String
deriving DecidableEq

/-- The schedule dataframe: its column names and its rows. -/
structure Dataset where
  cols : List String
  rows : List Tarefa
deriving DecidableEq

/-- Model of `re.split(';|,', s)`: split on every `;` or `,`, keeping empty tokens. -/
def splitRefs : List Char → List Char → List (List Char)
  | [], acc => [acc.reverse]
  | c :: cs, acc =>
    if c = ';' ∨ c = ',' then acc.reverse :: splitRefs cs []
    else splitRefs cs (c :: acc)

/-- Python `str.strip()`: drop leading and trailing whitespace. -/
def stripChars (l : List Char) : List Char :=
  ((l.dropWhile Char.isWhitespace).reverse.dropWhile Char.isWhitespace).reverse

/-- Numeric value of a digit string, as `int()` reads it. -/
def digitsToNat (l : List Char) : Nat :=
  l.foldl (fun n c => 10 * n + (c.toNat - 48)) 0

/-- Value of `int(s)` for the digit strings produced by the extractors. -/
def strToInt (s : String) : Int :=
  (digitsToNat s.data : Int)

/-- One parsed successor reference: id digits, relationship type, lag. -/
structure SucRef where
  id : String
  relType : String
  lag : Int
deriving DecidableEq

/-- The simulator's per-token regex
`(\d+)(FS|SS|FF|SF)?(?:([+-]\d+)(?:\s*dias)?)?` matched by `re.match`:
leading digits, then an optional relationship code, then an optional
signed lag; no match when the token has no leading digit. -/
def matchToken (l : List Char) : Option SucRef :=
  let ds := l.takeWhile Char.isDigit
  if ds = [] then none
  else
    let r1 := l.dropWhile Char.isDigit
    let p :=
      if r1.take 2 = ['F', 'S'] then ("FS", r1.drop 2)
      else if r1.take 2 = ['S', 'S'] then ("SS", r1.drop 2)
      else if r1.take 2 = ['F', 'F'] then ("FF", r1.drop 2)
      else if r1.take 2 = ['S', 'F'] then ("SF", r1.drop 2)
      else ("FS", r1)
    let lag : Int :=
      match p.2 with
      | '+' :: rest =>
        let lds := rest.takeWhile Char.isDigit
        if lds = [] then 0 else (digitsToNat lds : Int)
      | '-' :: rest =>
        let lds := rest.takeWhile Char.isDigit
        if lds = [] then 0 else -(digitsToNat lds : Int)
      | _ => 0
    some ⟨String.mk ds, p.1, lag⟩

/-- The simulator's `extrair_ids_sucessoras` (lines 142-156): `None` or
the empty string yield `[]`; otherwise split on `;`/`,`, strip each
token and run the regex, discarding tokens that do not match. -/
def extrairIdsSucessorasSim (sucessoras : Option String) : List SucRef :=
  match sucessoras with
  | none => []
  | some s =>
    if s = "" then []
    else (splitRefs s.data []).filterMap (fun tok => matchToken (stripChars tok))

/-- The tracer's `extrair_ids_sucessoras` (lines 42-47): split on `;`/`,`,
delete every non-digit character of each token (`re.sub(r'[^0-9]', '')`)
and keep the result when it is a nonempty digit string. -/
def extrairIdsSucessorasTracer (sucessoras : Option String) : List String :=
  match sucessoras with
  | none => []
  | some s =>
    if s = "" then []
    else
      (splitRefs s.data []).filterMap (fun tok =>
        let ds := tok.filter Char.isDigit
        if ds = [] then none else some (String.mk ds))

/-- Model of `df[df.index == i].iloc[0]` guarded by an emptiness check: the
first row whose index equals `i`. -/
def findTarefa (rows : List Tarefa) (i : Int) : Option Tarefa :=
  rows.find? (fun t => t.idx = i)

/-- A value of the tracer's `current_idx` variable: the initial call
passes the integer dataframe index, every later hop is a digit string
coming from successor extraction. -/
inductive TKey where
  | ival : Int → TKey
  | sval : String → TKey
deriving DecidableEq

/-- Python truthiness of `current_idx` in `while current_idx and ...`:
the integer `0` and the empty string are falsy. -/
def TKey.truthy : TKey → Bool
  | .ival v => v ≠ 0
  | .sval s => s ≠ ""

/-- Value of `int(current_idx)`, the dataframe index the key denotes. -/
def TKey.toIdx : TKey → Int
  | .ival v => v
  | .sval s => strToInt s

/-- The successor-selection loop of `rastrear_cadeia` (lines 71-79):
among the extracted ids whose row exists, pick the one of strictly
minimal `Folga`, first encountered winning ties. -/
def escolherProxima (rows : List Tarefa) (sucs : List String) : Option String :=
  (sucs.foldl
    (fun (acc : Option (String × Int)) sid =>
      match findTarefa rows (strToInt sid) with
      | none => acc
      | some t =>
        match acc with
        | none => some (sid, t.folga)
        | some pr => if t.folga < pr.2 then some (sid, t.folga) else acc)
    none).map Prod.fst

/-- The next value of `current_idx` after visiting `t`: the chosen
successor id string, or `None` when no successor is resolvable — a pure
function of the visited task, since the dataframe is read-only during a
trace. -/
def gNext (rows : List Tarefa) (t : Tarefa) : Option TKey :=
  (escolherProxima rows (extrairIdsSucessorasTracer t.sucessoras)).map TKey.sval

/-- The `while` loop of `rastrear_cadeia` (lines 56-79), fuel-indexed;
`none` means the fuel ran out before the loop exited. -/
def rastrearAux (rows : List Tarefa) :
    Nat → Option TKey → List TKey → List String → Int → Option (List String × Int)
  | 0, _, _, _, _ => none
  | fuel + 1, cur, visited, cadeia, folgaTotal =>
    match cur with
    | none => some (cadeia, folgaTotal)
    | some k =>
      if ¬ k.truthy ∨ k ∈ visited then some (cadeia, folgaTotal)
      else
        match findTarefa rows k.toIdx with
        | none => some (cadeia, folgaTotal)
        | some t =>
          let cadeia' := cadeia ++ [t.nome]
          let folga' := folgaTotal + t.folga
          if t.critica = "Sim" then some (cadeia', folga')
          else rastrearAux rows fuel (gNext rows t) (visited ++ [k]) cadeia' folga'

/-- Model of `rastrear_cadeia(tarefa_idx, df)`: run the loop from the integer
index with fuel that the termination theorem shows is never exhausted. -/
def rastrearCadeia (df : Dataset) (tarefaIdx : Int) : Option (List String × Int) :=
  rastrearAux df.rows (df.rows.length + 2) (some (TKey.ival tarefaIdx)) [] [] 0

/-- The dataframe indices not yet covered by the visited keys: the
decreasing measure of the trace loop. -/
def chavesRestantes (rows : List Tarefa) (visited : List TKey) : Finset Int :=
  (rows.map (fun t => t.idx)).toFinset \ (visited.map TKey.toIdx).toFinset

/-- Loop invariant of the trace: every visited key holds an existing
non-critical task whose next hop is nothing, the current key, or an
already-visited key. -/
def trilhaInv (rows : List Tarefa) (visited : List TKey) (cur : Option TKey) : Prop :=
  ∀ k ∈ visited, ∃ t, findTarefa rows k.toIdx = some t ∧
    (gNext rows t = none ∨ gNext rows t = cur ∨
      ∃ k', gNext rows t = some k' ∧ k' ∈ visited)

/-- One record of the `tarefas_impactadas` list (lines 185-196). -/
structure ImpactRow where
  tarefa : String
  indice : Int
  inicioOriginal : Int
  terminoOriginal : Int
  inicioNovo : Int
  terminoNovo : Int
  folgaOriginal : Int
  novaFolga : Int
  atrasoInicio : Int
  atrasoTermino : Int
deriving DecidableEq

/-- The mutable state of one simulation call: the caller's dataframe
`df`, the working copy `df_sim`, the `visited` set and the impact list. -/
structure SimSt where
  df : List Tarefa
  dfSim : List Tarefa
  visited : List Int
  impacto : List ImpactRow
deriving DecidableEq

/-- The four `df_sim.loc[df_sim.index == current_idx, ...] = ...` writes
(lines 199-202): every row of matching index gets the new start, finish,
slack and criticality flag. -/
def updateTarefa (rows : List Tarefa) (i ni nt nf : Int) (crit : String) : List Tarefa :=
  rows.map (fun t =>
    if t.idx = i then { t with inicio := ni, termino := nt, folga := nf, critica := crit }
    else t)

/-- Lines 169-172: the slack-absorption arithmetic of one visit. -/
def novaFolgaCalc (tarefa : Tarefa) (aIni aTer : Int) : Int :=
  tarefa.folga - min tarefa.folga (max aIni aTer)

/-- Lines 175-182: the new finish date, corrected to preserve the fixed
duration when the shifted span disagrees with it. -/
def novoTerminoCalc (tarefa : Tarefa) (aIni aTer : Int) : Int :=
  if (tarefa.termino + aTer) - (tarefa.inicio + aIni) ≠ tarefa.duracao then
    (tarefa.inicio + aIni) + tarefa.duracao
  else tarefa.termino + aTer

/-- Lines 185-196: the impact-table record of one visit. -/
def impactRowDe (tarefa : Tarefa) (idx aIni aTer : Int) : ImpactRow :=
  ⟨tarefa.nome, idx, tarefa.inicio, tarefa.termino, tarefa.inicio + aIni,
    novoTerminoCalc tarefa aIni aTer, tarefa.folga, novaFolgaCalc tarefa aIni aTer,
    aIni, aTer⟩

/-- Lines 166 and 185-202: one visit's effect on the state — mark the
index visited, append the impact record and write the new start, finish,
slack and criticality flag into the working copy. -/
def propagarUpdate (st : SimSt) (idx aIni aTer : Int) (tarefa : Tarefa) : SimSt :=
  ⟨st.df,
    updateTarefa st.dfSim idx (tarefa.inicio + aIni) (novoTerminoCalc tarefa aIni aTer)
      (novaFolgaCalc tarefa aIni aTer)
      (if novaFolgaCalc tarefa aIni aTer = 0 then "Sim" else "Não"),
    idx :: st.visited, st.impacto ++ [impactRowDe tarefa idx aIni aTer]⟩

/-- Lines 206-227: one iteration of the successor loop — the
relationship-type arithmetic, the flooring of both offsets at 0, and the
`df_sim.loc[suc_idx, 'Duração BL']` lookup (which raises, i.e. `none`,
when an FF/SF successor is absent); `rec` is the recursive call back
into `propagar_atraso`. -/
def propagarSucessorCom (rec : SimSt → Int → Int → Int → Option SimSt)
    (aIni aTer atrasoPropagado : Int) (st2 : SimSt) (suc : SucRef) : Option SimSt :=
  if suc.relType = "FS" then
    rec st2 (strToInt suc.id) (max 0 (atrasoPropagado + suc.lag))
      (max 0 (atrasoPropagado + suc.lag))
  else if suc.relType = "SS" then
    rec st2 (strToInt suc.id) (max 0 (aIni + suc.lag)) (max 0 (aIni + suc.lag))
  else if suc.relType = "FF" then
    match findTarefa st2.dfSim (strToInt suc.id) with
    | none => none
    | some sucT =>
      rec st2 (strToInt suc.id) (max 0 (aTer + suc.lag - sucT.duracao))
        (max 0 (aTer + suc.lag))
  else if suc.relType = "SF" then
    match findTarefa st2.dfSim (strToInt suc.id) with
    | none => none
    | some sucT =>
      rec st2 (strToInt suc.id) (max 0 (aTer + suc.lag))
        (max 0 (aTer + suc.lag + sucT.duracao))
  else some st2

/-- Model of `propagar_atraso(current_idx, atraso_inicio, atraso_termino)`
(lines 163-227), fuel-indexed.  `none` models a `KeyError` escaping from
the `df_sim.loc[suc_idx, 'Duração BL']` lookup of an FF/SF successor
that is absent from the index; every other path returns the new state. -/
def propagarAtraso : Nat → SimSt → Int → Int → Int → Option SimSt
  | 0, st, _, _, _ => some st
  | fuel + 1, st, idx, aIni, aTer =>
    if idx ∈ st.visited then some st
    else
      match findTarefa st.dfSim idx with
      | none => some st
      | some tarefa =>
        (extrairIdsSucessorasSim tarefa.sucessoras).foldlM
          (propagarSucessorCom (propagarAtraso fuel) aIni aTer
            (max aIni aTer - min tarefa.folga (max aIni aTer)))
          (propagarUpdate st idx aIni aTer tarefa)

/-- Model of `df_sim['Término BL'].max()`: `None` on an empty column. -/
def maxTermino (rows : List Tarefa) : Option Int :=
  (rows.map (fun t => t.termino)).foldl
    (fun acc v => match acc with | none => some v | some m => some (max m v)) none

/-- The `colunas_desejadas` list of line 121. -/
def colunasDesejadas : List String :=
  ["Nome da tarefa", "Início BL", "Término BL", "Duração BL", "Folga", "Sucessoras", "Crítica"]

/-- The propagation phase of one simulation call: the working copy
starts as a copy of the rows (the dtype coercions are the identity on
the typed model) and the seed receives the raw delay on both offsets
(line 231). -/
def simularAtrasoSt (ds : Dataset) (tarefaIdx diasAtraso : Int) : Option SimSt :=
  propagarAtraso (ds.rows.length + 1) ⟨ds.rows, ds.rows, [], []⟩ tarefaIdx diasAtraso diasAtraso

/-- Model of `simular_atraso_caminho_critico(df, tarefa_idx, dias_atraso)`
(lines 103-263): column check, seed-existence check, propagation, then
the impact table, the zero-slack table and the maximal finish date; the
`except` handler turns an escaped exception into the empty triple. -/
def simularAtrasoCaminhoCritico (ds : Dataset) (tarefaIdx diasAtraso : Int) :
    List ImpactRow × List Tarefa × Option Int :=
  if colunasDesejadas.all (fun c => c ∈ ds.cols) then
    if (findTarefa ds.rows tarefaIdx).isSome then
      match simularAtrasoSt ds tarefaIdx diasAtraso with
      | some st => (st.impacto, st.dfSim.filter (fun t => t.folga = 0), maxTermino st.dfSim)
      | none => ([], [], none)
    else ([], [], none)
  else ([], [], none)

/-- The schedule fields of a row: everything except the derived
criticality flag — equality of these is what "start, finish and slack
unchanged" means. -/
def schedView (t : Tarefa) : Int × Int × Int × Int × Int × Option String × String :=
  (t.idx, t.inicio, t.termino, t.duracao, t.folga, t.sucessoras, t.nome)

/-- The data-model invariants of the design plus the edge restrictions
under which a zero-day delay is a no-op: unique indices; non-negative
slack and duration with `finish - start = duration` per row; and every
parsed successor reference has non-positive lag, a type other than SF,
and a target present in the dataset. -/
def bemFormado (rows : List Tarefa) : Prop :=
  (rows.map (fun t => t.idx)).Nodup ∧
  ∀ t ∈ rows, 0 ≤ t.folga ∧ t.termino - t.inicio = t.duracao ∧ 0 ≤ t.duracao ∧
    ∀ r ∈ extrairIdsSucessorasSim t.sucessoras,
      r.lag ≤ 0 ∧ r.relType ≠ "SF" ∧ strToInt r.id ∈ rows.map (fun t => t.idx)

instance (rows : List Tarefa) : Decidable (bemFormado rows) := by
  unfold bemFormado
  infer_instance

/-- Dataset for the C2 witness: slack 3 on task A, an FS edge with
lag -1 to the critical task B — `bemFormado` holds. -/
def dsC2w : Dataset :=
  ⟨colunasDesejadas,
   [⟨1, "A", 0, 5, 5, 3, some "2FS-1", "Não"⟩,
    ⟨2, "B", 5, 8, 3, 0, some "", "Sim"⟩]⟩

/-- Dataset for C1: task A (duration 5, slack 0) linked to task B
(duration 3, slack 0) by an FS edge with lag +2. -/
def dsC1x : Dataset :=
  ⟨colunasDesejadas,
   [⟨1, "A", 0, 5, 5, 0, some "2FS+2", "Sim"⟩,
    ⟨2, "B", 7, 10, 3, 0, some "", "Sim"⟩]⟩

/-- Dataset for the C2 counterexample: critical task A, FS successor B
with lag +2. -/
def dsC2x : Dataset :=
  ⟨colunasDesejadas,
   [⟨1, "A", 0, 5, 5, 0, some "2FS+2", "Sim"⟩,
    ⟨2, "B", 7, 10, 3, 0, some "", "Sim"⟩]⟩

/-- Dataset for the C5 counterexample: a two-task successor cycle with
no critical task. -/
def dsC5x : Dataset :=
  ⟨colunasDesejadas,
   [⟨1, "T1", 0, 4, 4, 5, some "2", "Não"⟩,
    ⟨2, "T2", 4, 8, 4, 7, some "1", "Não"⟩]⟩

/-- Dataset for the C9 counterexample: a critical task sitting at
dataframe index 0. -/
def dsC9x : Dataset :=
  ⟨colunasDesejadas, [⟨0, "Raiz", 0, 3, 3, 2, some "", "Sim"⟩]⟩

/-- Dataset for the C9 witness: a critical task at a nonzero index. -/
def dsC9w : Dataset :=
  ⟨colunasDesejadas, [⟨3, "Marco", 0, 6, 6, 0, some "", "Sim"⟩]⟩

/-- Dataset for the C8 witness: well-formed columns but no task 99. -/
def dsC8w : Dataset :=
  ⟨colunasDesejadas, [⟨1, "A", 0, 5, 5, 0, some "", "Sim"⟩]⟩

/-- Dataset for the C10 witness: one isolated task with slack 2. -/
def dsC10w : Dataset :=
  ⟨colunasDesejadas, [⟨1, "X", 10, 14, 4, 2, some "", "Não"⟩]⟩

/-- Dataset for the C6 witness: a delay of 5 days drives the slack of
task 1 (slack 1) to zero. -/
def dsC6w : Dataset :=
  ⟨colunasDesejadas, [⟨1, "X", 10, 14, 4, 1, some "", "Não"⟩]⟩

theorem findTarefa_mem {rows : List Tarefa} {i : Int} {t : Tarefa}
    (h : findTarefa rows i = some t) : t ∈ rows :=
  List.mem_of_find?_eq_some h

theorem findTarefa_idx {rows : List Tarefa} {i : Int} {t : Tarefa}
    (h : findTarefa rows i = some t) : t.idx = i := by
  have := List.find?_some h
  simpa using this

theorem findTarefa_isSome_iff {rows : List Tarefa} {i : Int} :
    (findTarefa rows i).isSome = true ↔ i ∈ rows.map (fun t => t.idx) := by
  unfold findTarefa
  rw [List.find?_isSome, List.mem_map]
  constructor
  · rintro ⟨t, ht, hp⟩
    exact ⟨t, ht, by simpa using hp⟩
  · rintro ⟨t, ht, hp⟩
    exact ⟨t, ht, by simpa using hp⟩

/-- Folding with `foldlM` over `Option` preserves any invariant that every step
preserves. -/
theorem foldlM_option_preserves {α σ : Type} (P : σ → Prop) (f : σ → α → Option σ)
    (hf : ∀ s a s', P s → f s a = some s' → P s') :
    ∀ (l : List α) (s s' : σ), List.foldlM f s l = some s' → P s → P s'
  | [], s, s', h, hP => by
    simp only [List.foldlM_nil] at h
    cases h
    exact hP
  | a :: l, s, s', h, hP => by
    simp only [List.foldlM_cons] at h
    cases hfa : f s a with
    | none => rw [hfa] at h; simp at h
    | some s1 =>
      rw [hfa] at h
      simp only [Option.bind_eq_bind, Option.some_bind] at h
      exact foldlM_option_preserves P f hf l s1 s' h (hf s a s1 hP hfa)

/-- A state invariant preserved by every single-visit update is
preserved by the whole delay propagation. -/
theorem propagar_preserves (P : SimSt → Prop)
    (hupd : ∀ st idx aIni aTer tarefa, idx ∉ st.visited →
      findTarefa st.dfSim idx = some tarefa → P st →
      P (propagarUpdate st idx aIni aTer tarefa)) :
    ∀ (fuel : Nat) (st : SimSt) (idx aIni aTer : Int) (st' : SimSt),
      propagarAtraso fuel st idx aIni aTer = some st' → P st → P st' := by
  intro fuel
  induction fuel with
  | zero =>
    intro st idx aIni aTer st' h hP
    rw [propagarAtraso] at h
    cases h
    exact hP
  | succ fuel ih =>
    intro st idx aIni aTer st' h hP
    rw [propagarAtraso] at h
    by_cases hv : idx ∈ st.visited
    · rw [if_pos hv] at h
      cases h
      exact hP
    · rw [if_neg hv] at h
      cases hfind : findTarefa st.dfSim idx with
      | none =>
        rw [hfind] at h
        cases h
        exact hP
      | some tarefa =>
        rw [hfind] at h
        have hP1 : P (propagarUpdate st idx aIni aTer tarefa) :=
          hupd st idx aIni aTer tarefa hv hfind hP
        refine foldlM_option_preserves P _ ?_ _ _ _ h hP1
        intro s2 suc s3 hP2 hstep
        unfold propagarSucessorCom at hstep
        by_cases h1 : suc.relType = "FS"
        · rw [if_pos h1] at hstep
          exact ih _ _ _ _ _ hstep hP2
        · rw [if_neg h1] at hstep
          by_cases h2 : suc.relType = "SS"
          · rw [if_pos h2] at hstep
            exact ih _ _ _ _ _ hstep hP2
          · rw [if_neg h2] at hstep
            by_cases h3 : suc.relType = "FF"
            · rw [if_pos h3] at hstep
              cases hf : findTarefa s2.dfSim (strToInt suc.id) with
              | none => rw [hf] at hstep; cases hstep
              | some sucT =>
                rw [hf] at hstep
                exact ih _ _ _ _ _ hstep hP2
            · rw [if_neg h3] at hstep
              by_cases h4 : suc.relType = "SF"
              · rw [if_pos h4] at hstep
                cases hf : findTarefa s2.dfSim (strToInt suc.id) with
                | none => rw [hf] at hstep; cases hstep
                | some sucT =>
                  rw [hf] at hstep
                  exact ih _ _ _ _ _ hstep hP2
              · rw [if_neg h4] at hstep
                cases hstep
                exact hP2

/-- C7.  Frame property: the propagation only ever writes to the
working copy `df_sim`, so the caller's dataframe component of the state
is still the original rows when the simulation returns. -/
theorem c7_frame_property (ds : Dataset) (tarefaIdx diasAtraso : Int) (st : SimSt)
    (h : simularAtrasoSt ds tarefaIdx diasAtraso = some st) : st.df = ds.rows :=
  propagar_preserves (fun s => s.df = ds.rows)
    (fun _ _ _ _ _ _ _ hP => hP) _ _ _ _ _ _ h rfl

/-- C7 witness: the frame property evaluated on a concrete simulation. -/
theorem c7_frame_property_witness :
    (simularAtrasoSt dsC10w 1 (-3)).map SimSt.df = some dsC10w.rows := by
  cases hh : simularAtrasoSt dsC10w 1 (-3) with
  | none => exact absurd hh (by decide)
  | some st => simp [c7_frame_property dsC10w 1 (-3) st hh]

/-- C6.  Simulator write invariant: every task the propagation has
visited (and therefore written) carries a non-negative slack in the
working copy, and its criticality flag is `"Sim"` exactly when that
written slack is zero. -/
theorem c6_slack_write_invariant (ds : Dataset) (tarefaIdx diasAtraso : Int)
    (st : SimSt) (t : Tarefa)
    (h : simularAtrasoSt ds tarefaIdx diasAtraso = some st)
    (ht : t ∈ st.dfSim) (hv : t.idx ∈ st.visited) :
    0 ≤ t.folga ∧ (t.critica = "Sim" ↔ t.folga = 0) := by
  have main := propagar_preserves
    (fun s => ∀ u ∈ s.dfSim, u.idx ∈ s.visited →
      0 ≤ u.folga ∧ (u.critica = "Sim" ↔ u.folga = 0))
    ?hupd _ _ _ _ _ _ h ?hbase
  · exact main t ht hv
  case hbase =>
    intro u _ humem
    simp at humem
  case hupd =>
    intro st0 idx aIni aTer tarefa hnv hfind hP u hu huv
    simp only [propagarUpdate, updateTarefa, List.mem_map] at hu
    obtain ⟨w, hw, hwu⟩ := hu
    by_cases hwi : w.idx = idx
    · rw [if_pos hwi] at hwu
      subst hwu
      constructor
      · exact sub_nonneg.mpr (min_le_left _ _)
      · by_cases hz : novaFolgaCalc tarefa aIni aTer = 0
        · simp [hz]
        · simp [hz]
    · rw [if_neg hwi] at hwu
      subst hwu
      simp only [propagarUpdate, List.mem_cons] at huv
      rcases huv with huv | huv
      · exact absurd huv hwi
      · exact hP w hw huv

/-- C6 witness: the invariant read off the written task of a concrete
simulation that drives the slack to zero. -/
theorem c6_slack_write_invariant_witness :
    0 ≤ (⟨1, "X", 15, 19, 4, 0, some "", "Sim"⟩ : Tarefa).folga ∧
    ((⟨1, "X", 15, 19, 4, 0, some "", "Sim"⟩ : Tarefa).critica = "Sim" ↔
      (⟨1, "X", 15, 19, 4, 0, some "", "Sim"⟩ : Tarefa).folga = 0) :=
  c6_slack_write_invariant dsC6w 1 5
    ⟨dsC6w.rows, [⟨1, "X", 15, 19, 4, 0, some "", "Sim"⟩], [1],
      [⟨"X", 1, 10, 14, 15, 19, 1, 0, 5, 5⟩]⟩
    ⟨1, "X", 15, 19, 4, 0, some "", "Sim"⟩
    (by decide) (by decide) (by decide)

/-- Looking up the written index after a `df_sim.loc` write returns the
first matching row with the written fields. -/
theorem findTarefa_updateTarefa_self {rows : List Tarefa} {i : Int} {t : Tarefa}
    (h : findTarefa rows i = some t) (ni nt nf : Int) (c : String) :
    findTarefa (updateTarefa rows i ni nt nf c) i =
      some { t with inicio := ni, termino := nt, folga := nf, critica := c } := by
  induction rows with
  | nil => simp [findTarefa] at h
  | cons u rest ih =>
    by_cases hu : u.idx = i
    · unfold findTarefa at h
      rw [List.find?_cons_of_pos _ (by simpa using hu)] at h
      cases h
      unfold findTarefa updateTarefa
      simp only [List.map_cons, if_pos hu]
      rw [List.find?_cons_of_pos _ (by simpa using hu)]
    · unfold findTarefa at h
      rw [List.find?_cons_of_neg _ (by simpa using hu)] at h
      unfold findTarefa updateTarefa
      simp only [List.map_cons, if_neg hu]
      rw [List.find?_cons_of_neg _ (by simpa using hu)]
      exact ih h

/-- C10.  Negative delays are accepted: for a seed task with no parsed
successors and non-negative slack, a delay `d < 0` yields exactly one
impact row, moves the task's start to `start + d` with the finish
re-derived as the new start plus the duration, and stores the enlarged
slack `slack - d` (no clamping to the original schedule). -/
theorem c10_negative_delay (ds : Dataset) (tarefaIdx d : Int) (t : Tarefa)
    (hcols : ∀ c ∈ colunasDesejadas, c ∈ ds.cols)
    (hfind : findTarefa ds.rows tarefaIdx = some t)
    (hsuc : extrairIdsSucessorasSim t.sucessoras = [])
    (hfolga : 0 ≤ t.folga) (hd : d < 0) :
    (simularAtrasoCaminhoCritico ds tarefaIdx d).1 =
      [⟨t.nome, tarefaIdx, t.inicio, t.termino, t.inicio + d, t.inicio + d + t.duracao,
        t.folga, t.folga - d, d, d⟩] ∧
    (simularAtrasoSt ds tarefaIdx d).bind (fun st => findTarefa st.dfSim tarefaIdx) =
      some { t with
              inicio := t.inicio + d
              termino := t.inicio + d + t.duracao
              folga := t.folga - d
              critica := "Não" } := by
  have hnf : novaFolgaCalc t d d = t.folga - d := by
    unfold novaFolgaCalc
    rw [max_self, min_eq_right (hd.le.trans hfolga)]
  have hnt : novoTerminoCalc t d d = t.inicio + d + t.duracao := by
    unfold novoTerminoCalc
    split
    · rfl
    · omega
  have hcrit : (if novaFolgaCalc t d d = 0 then "Sim" else "Não") = "Não" := by
    rw [hnf, if_neg (by omega)]
  have hkey : simularAtrasoSt ds tarefaIdx d =
      some (propagarUpdate ⟨ds.rows, ds.rows, [], []⟩ tarefaIdx d d t) := by
    unfold simularAtrasoSt
    rw [propagarAtraso]
    rw [if_neg (by simp)]
    simp only [hfind, hsuc, List.foldlM_nil]
    rfl
  have hall : colunasDesejadas.all (fun c => decide (c ∈ ds.cols)) = true := by
    rw [List.all_eq_true]
    intro c hc
    simpa using hcols c hc
  constructor
  · unfold simularAtrasoCaminhoCritico
    rw [if_pos hall, if_pos (by rw [hfind]; rfl), hkey]
    simp only [propagarUpdate, impactRowDe, hnf, hnt]
    rfl
  · rw [hkey]
    simp only [Option.bind_some, propagarUpdate]
    rw [hcrit, hnf, hnt]
    exact findTarefa_updateTarefa_self hfind _ _ _ _

/-- C10 witness: the negative-delay behaviour on a concrete isolated
task (start 10, duration 4, slack 2) delayed by -3 days. -/
theorem c10_negative_delay_witness :
    (simularAtrasoCaminhoCritico dsC10w 1 (-3)).1 =
      [⟨"X", 1, 10, 14, 7, 11, 2, 5, -3, -3⟩] ∧
    (simularAtrasoSt dsC10w 1 (-3)).bind (fun st => findTarefa st.dfSim 1) =
      some ⟨1, "X", 7, 11, 4, 5, some "", "Não"⟩ := by
  have h := c10_negative_delay dsC10w 1 (-3) ⟨1, "X", 10, 14, 4, 2, some "", "Não"⟩
    (by decide) (by decide) (by decide) (by decide) (by decide)
  refine ⟨?_, ?_⟩
  · rw [h.1]
    norm_num
  · rw [h.2]
    norm_num

/-- With pairwise-distinct indices, two rows of equal index coincide. -/
theorem eq_of_nodup_idx {l : List Tarefa} (h : (l.map (fun t => t.idx)).Nodup)
    {a b : Tarefa} (ha : a ∈ l) (hb : b ∈ l) (hab : a.idx = b.idx) : a = b := by
  induction l with
  | nil => cases ha
  | cons u rest ih =>
    simp only [List.map_cons, List.nodup_cons] at h
    rcases List.mem_cons.mp ha with rfl | ha'
    · rcases List.mem_cons.mp hb with rfl | hb'
      · rfl
      · exact absurd (List.mem_map.mpr ⟨b, hb', hab.symm⟩) h.1
    · rcases List.mem_cons.mp hb with rfl | hb'
      · exact absurd (List.mem_map.mpr ⟨a, ha', hab⟩) h.1
      · exact ih h.2 ha' hb'

/-- The `df_sim.loc` writes never touch the index column. -/
theorem map_idx_updateTarefa (rows : List Tarefa) (i ni nt nf : Int) (c : String) :
    (updateTarefa rows i ni nt nf c).map (fun t => t.idx) = rows.map (fun t => t.idx) := by
  unfold updateTarefa
  rw [List.map_map]
  apply List.map_congr_left
  intro t _
  by_cases h : t.idx = i <;> simp [h]

/-- A single visit's write re-establishes `finish - start = duration`
for the written row and keeps it for every other row. -/
theorem duracao_inv_propagarUpdate {rows : List Tarefa} {idx : Int} {tarefa : Tarefa}
    (hnodup : (rows.map (fun t => t.idx)).Nodup)
    (hQ : ∀ u ∈ rows, u.termino - u.inicio = u.duracao)
    (hfind : findTarefa rows idx = some tarefa) (aIni aTer nf : Int) (c : String) :
    ∀ u' ∈ updateTarefa rows idx (tarefa.inicio + aIni)
      (novoTerminoCalc tarefa aIni aTer) nf c, u'.termino - u'.inicio = u'.duracao := by
  intro u' hu'
  simp only [updateTarefa, List.mem_map] at hu'
  obtain ⟨u, hu, huu⟩ := hu'
  by_cases hui : u.idx = idx
  · rw [if_pos hui] at huu
    have hut : u = tarefa :=
      eq_of_nodup_idx hnodup hu (findTarefa_mem hfind) (by rw [hui, findTarefa_idx hfind])
    subst hut
    subst huu
    have hq := hQ u hu
    simp only [novoTerminoCalc]
    split
    · simp
    · omega
  · rw [if_neg hui] at huu
    subst huu
    exact hQ u hu

/-- Every impact row the propagation appends beyond the entry row of the
call carries the floored (hence non-negative) offsets, and its recorded
new dates are the original ones shifted by the start offset.  The nodup
and duration hypotheses mirror the dataset invariants of the design. -/
theorem propagar_c1_spec :
    ∀ (fuel : Nat) (st : SimSt) (idx aIni aTer : Int) (st' : SimSt),
      (st.dfSim.map (fun t => t.idx)).Nodup →
      (∀ u ∈ st.dfSim, u.termino - u.inicio = u.duracao) →
      propagarAtraso fuel st idx aIni aTer = some st' →
      ((st'.dfSim.map (fun t => t.idx)).Nodup ∧
        (∀ u ∈ st'.dfSim, u.termino - u.inicio = u.duracao)) ∧
      ∀ row ∈ st'.impacto, row ∈ st.impacto ∨
        (((row.indice = idx ∧ row.atrasoInicio = aIni ∧ row.atrasoTermino = aTer) ∨
          (0 ≤ row.atrasoInicio ∧ 0 ≤ row.atrasoTermino)) ∧
         row.inicioNovo = row.inicioOriginal + row.atrasoInicio ∧
         row.terminoNovo = row.terminoOriginal + row.atrasoInicio) := by
  intro fuel
  induction fuel with
  | zero =>
    intro st idx aIni aTer st' hn hQ h
    rw [propagarAtraso] at h
    cases h
    exact ⟨⟨hn, hQ⟩, fun row hr => Or.inl hr⟩
  | succ fuel ih =>
    intro st idx aIni aTer st' hn hQ h
    rw [propagarAtraso] at h
    by_cases hv : idx ∈ st.visited
    · rw [if_pos hv] at h
      cases h
      exact ⟨⟨hn, hQ⟩, fun row hr => Or.inl hr⟩
    · rw [if_neg hv] at h
      cases hfind : findTarefa st.dfSim idx with
      | none =>
        rw [hfind] at h
        cases h
        exact ⟨⟨hn, hQ⟩, fun row hr => Or.inl hr⟩
      | some tarefa =>
        rw [hfind] at h
        have htermNovo : novoTerminoCalc tarefa aIni aTer = tarefa.termino + aIni := by
          have hq := hQ tarefa (findTarefa_mem hfind)
          simp only [novoTerminoCalc]
          split <;> omega
        have hbase :
            ((propagarUpdate st idx aIni aTer tarefa).dfSim.map (fun t => t.idx)).Nodup ∧
            (∀ u ∈ (propagarUpdate st idx aIni aTer tarefa).dfSim,
              u.termino - u.inicio = u.duracao) ∧
            ∀ row ∈ (propagarUpdate st idx aIni aTer tarefa).impacto,
              row ∈ st.impacto ∨
              (((row.indice = idx ∧ row.atrasoInicio = aIni ∧ row.atrasoTermino = aTer) ∨
                (0 ≤ row.atrasoInicio ∧ 0 ≤ row.atrasoTermino)) ∧
               row.inicioNovo = row.inicioOriginal + row.atrasoInicio ∧
               row.terminoNovo = row.terminoOriginal + row.atrasoInicio) := by
          refine ⟨?_, ?_, ?_⟩
          · simpa [propagarUpdate, map_idx_updateTarefa] using hn
          · exact duracao_inv_propagarUpdate hn hQ hfind aIni aTer _ _
          · intro row hr
            simp only [propagarUpdate, List.mem_append, List.mem_singleton] at hr
            rcases hr with hr | hr
            · exact Or.inl hr
            · subst hr
              refine Or.inr ⟨Or.inl ⟨rfl, rfl, rfl⟩, rfl, ?_⟩
              simpa [impactRowDe] using htermNovo
        have hfold := foldlM_option_preserves
          (fun s => ((s.dfSim.map (fun t => t.idx)).Nodup ∧
              (∀ u ∈ s.dfSim, u.termino - u.inicio = u.duracao)) ∧
            ∀ row ∈ s.impacto, row ∈ st.impacto ∨
              (((row.indice = idx ∧ row.atrasoInicio = aIni ∧ row.atrasoTermino = aTer) ∨
                (0 ≤ row.atrasoInicio ∧ 0 ≤ row.atrasoTermino)) ∧
               row.inicioNovo = row.inicioOriginal + row.atrasoInicio ∧
               row.terminoNovo = row.terminoOriginal + row.atrasoInicio))
          _ ?_ _ _ _ h ⟨⟨hbase.1, hbase.2.1⟩, hbase.2.2⟩
        · exact ⟨hfold.1, hfold.2⟩
        · intro s2 suc s3 hP2 hstep
          unfold propagarSucessorCom at hstep
          have hmain : ∀ (ai2 at2 : Int), 0 ≤ ai2 → 0 ≤ at2 →
              propagarAtraso fuel s2 (strToInt suc.id) ai2 at2 = some s3 →
              ((s3.dfSim.map (fun t => t.idx)).Nodup ∧
                (∀ u ∈ s3.dfSim, u.termino - u.inicio = u.duracao)) ∧
              ∀ row ∈ s3.impacto, row ∈ st.impacto ∨
                (((row.indice = idx ∧ row.atrasoInicio = aIni ∧ row.atrasoTermino = aTer) ∨
                  (0 ≤ row.atrasoInicio ∧ 0 ≤ row.atrasoTermino)) ∧
                 row.inicioNovo = row.inicioOriginal + row.atrasoInicio ∧
                 row.terminoNovo = row.terminoOriginal + row.atrasoInicio) := by
            intro ai2 at2 hai2 hat2 hcall
            have hres := ih s2 (strToInt suc.id) ai2 at2 s3 hP2.1.1 hP2.1.2 hcall
            refine ⟨hres.1, ?_⟩
            intro row hr
            rcases hres.2 row hr with hr2 | ⟨hd, hrel⟩
            · exact hP2.2 row hr2
            · rcases hd with ⟨_, hA, hB⟩ | hd
              · exact Or.inr ⟨Or.inr ⟨hA ▸ hai2, hB ▸ hat2⟩, hrel⟩
              · exact Or.inr ⟨Or.inr hd, hrel⟩
          by_cases h1 : suc.relType = "FS"
          · rw [if_pos h1] at hstep
            exact hmain _ _ (le_max_left _ _) (le_max_left _ _) hstep
          · rw [if_neg h1] at hstep
            by_cases h2 : suc.relType = "SS"
            · rw [if_pos h2] at hstep
              exact hmain _ _ (le_max_left _ _) (le_max_left _ _) hstep
            · rw [if_neg h2] at hstep
              by_cases h3 : suc.relType = "FF"
              · rw [if_pos h3] at hstep
                cases hf : findTarefa s2.dfSim (strToInt suc.id) with
                | none => rw [hf] at hstep; cases hstep
                | some sucT =>
                  rw [hf] at hstep
                  exact hmain _ _ (le_max_left _ _) (le_max_left _ _) hstep
              · rw [if_neg h3] at hstep
                by_cases h4 : suc.relType = "SF"
                · rw [if_pos h4] at hstep
                  cases hf : findTarefa s2.dfSim (strToInt suc.id) with
                  | none => rw [hf] at hstep; cases hstep
                  | some sucT =>
                    rw [hf] at hstep
                    exact hmain _ _ (le_max_left _ _) (le_max_left _ _) hstep
                · rw [if_neg h4] at hstep
                  cases hstep
                  exact hP2

/-- C1.  Relationship-type offset arithmetic: on the concrete dataset
A (duration 5, slack 0) -FS lag +2-> B (duration 3, slack 0), simulating
a 4-day delay of A propagates the offset 4 + 2 = 6 to both of B's dates,
leaving B's duration at 3; and in general every impact row other than
the seed's was created by a floored call, so its offsets are
non-negative and the dates it records never precede the task's previous
schedule (given the dataset invariants of unique indices and
`finish - start = duration`). -/
theorem c1_relationship_offset_arithmetic :
    ((simularAtrasoCaminhoCritico dsC1x 1 4).1 =
        [⟨"A", 1, 0, 5, 4, 9, 0, 0, 4, 4⟩, ⟨"B", 2, 7, 10, 13, 16, 0, 0, 6, 6⟩] ∧
      (simularAtrasoSt dsC1x 1 4).bind (fun st => findTarefa st.dfSim 2) =
        some ⟨2, "B", 13, 16, 3, 0, some "", "Sim"⟩) ∧
    ∀ (ds : Dataset) (tarefaIdx diasAtraso : Int) (st : SimSt) (row : ImpactRow),
      (ds.rows.map (fun t => t.idx)).Nodup →
      (∀ u ∈ ds.rows, u.termino - u.inicio = u.duracao) →
      simularAtrasoSt ds tarefaIdx diasAtraso = some st →
      row ∈ st.impacto → row.indice ≠ tarefaIdx →
      (0 ≤ row.atrasoInicio ∧ 0 ≤ row.atrasoTermino) ∧
      row.inicioOriginal ≤ row.inicioNovo ∧ row.terminoOriginal ≤ row.terminoNovo := by
  constructor
  · exact ⟨by decide, by decide⟩
  · intro ds tarefaIdx diasAtraso st row hn hQ hsim hrow hne
    have hres := propagar_c1_spec _ _ _ _ _ _ hn hQ hsim
    rcases hres.2 row hrow with hr | ⟨hd, hrel1, hrel2⟩
    · cases hr
    · rcases hd with ⟨hidx, _, _⟩ | ⟨hA, hB⟩
      · exact absurd hidx hne
      · exact ⟨⟨hA, hB⟩, by omega, by omega⟩

/-- C1 witness: the floor property read off task B's impact row in the
concrete simulation. -/
theorem c1_relationship_offset_arithmetic_witness :
    (0 ≤ (⟨"B", 2, 7, 10, 13, 16, 0, 0, 6, 6⟩ : ImpactRow).atrasoInicio ∧
      0 ≤ (⟨"B", 2, 7, 10, 13, 16, 0, 0, 6, 6⟩ : ImpactRow).atrasoTermino) ∧
    (⟨"B", 2, 7, 10, 13, 16, 0, 0, 6, 6⟩ : ImpactRow).inicioOriginal ≤
      (⟨"B", 2, 7, 10, 13, 16, 0, 0, 6, 6⟩ : ImpactRow).inicioNovo ∧
    (⟨"B", 2, 7, 10, 13, 16, 0, 0, 6, 6⟩ : ImpactRow).terminoOriginal ≤
      (⟨"B", 2, 7, 10, 13, 16, 0, 0, 6, 6⟩ : ImpactRow).terminoNovo :=
  c1_relationship_offset_arithmetic.2 dsC1x 1 4
    ⟨dsC1x.rows,
      [⟨1, "A", 4, 9, 5, 0, some "2FS+2", "Sim"⟩, ⟨2, "B", 13, 16, 3, 0, some "", "Sim"⟩],
      [2, 1],
      [⟨"A", 1, 0, 5, 4, 9, 0, 0, 4, 4⟩, ⟨"B", 2, 7, 10, 13, 16, 0, 0, 6, 6⟩]⟩
    ⟨"B", 2, 7, 10, 13, 16, 0, 0, 6, 6⟩
    (by decide) (by decide) (by decide) (by decide) (by decide)

theorem schedView_map_idx {l l' : List Tarefa}
    (h : l'.map schedView = l.map schedView) :
    l'.map (fun t => t.idx) = l.map (fun t => t.idx) := by
  calc l'.map (fun t => t.idx) = (l'.map schedView).map (fun p => p.1) := by
        rw [List.map_map]
        exact List.map_congr_left (fun t _ => rfl)
    _ = (l.map schedView).map (fun p => p.1) := by rw [h]
    _ = l.map (fun t => t.idx) := by
        rw [List.map_map]
        exact List.map_congr_left (fun t _ => rfl)

theorem schedView_map_termino {l l' : List Tarefa}
    (h : l'.map schedView = l.map schedView) :
    l'.map (fun t => t.termino) = l.map (fun t => t.termino) := by
  calc l'.map (fun t => t.termino) = (l'.map schedView).map (fun p => p.2.2.1) := by
        rw [List.map_map]
        exact List.map_congr_left (fun t _ => rfl)
    _ = (l.map schedView).map (fun p => p.2.2.1) := by rw [h]
    _ = l.map (fun t => t.termino) := by
        rw [List.map_map]
        exact List.map_congr_left (fun t _ => rfl)

theorem maxTermino_congr {l l' : List Tarefa}
    (h : l'.map schedView = l.map schedView) : maxTermino l' = maxTermino l := by
  unfold maxTermino
  rw [schedView_map_termino h]

/-- The well-formedness conditions only mention schedule fields, so they
transfer across schedule-view equality. -/
theorem bemFormado_transfer {l l' : List Tarefa}
    (h : l'.map schedView = l.map schedView) (hb : bemFormado l) : bemFormado l' := by
  constructor
  · rw [schedView_map_idx h]
    exact hb.1
  · intro t' ht'
    obtain ⟨t, htl, he⟩ : ∃ t ∈ l, schedView t = schedView t' := by
      have hmem : schedView t' ∈ l.map schedView := by
        rw [← h]
        exact List.mem_map.mpr ⟨t', ht', rfl⟩
      exact List.mem_map.mp hmem
    simp only [schedView, Prod.mk.injEq] at he
    obtain ⟨_, hinicio, htermino, hduracao, hfolga, hsuc, _⟩ := he
    obtain ⟨h1, h2, h3, h4⟩ := hb.2 t htl
    refine ⟨hfolga ▸ h1, by omega, hduracao ▸ h3, ?_⟩
    intro r hr
    rw [← hsuc] at hr
    obtain ⟨ha, hb', hc⟩ := h4 r hr
    exact ⟨ha, hb', by rw [schedView_map_idx h]; exact hc⟩

/-- A `df_sim.loc` write whose written values equal the row's current
values preserves the schedule view of the whole table. -/
theorem updateTarefa_schedView {rows : List Tarefa} {idx : Int} {tarefa : Tarefa}
    (hnodup : (rows.map (fun t => t.idx)).Nodup)
    (hfind : findTarefa rows idx = some tarefa)
    {ni nt nf : Int} (c : String)
    (hni : ni = tarefa.inicio) (hnt : nt = tarefa.termino) (hnf : nf = tarefa.folga) :
    (updateTarefa rows idx ni nt nf c).map schedView = rows.map schedView := by
  unfold updateTarefa
  rw [List.map_map]
  apply List.map_congr_left
  intro u hu
  by_cases hui : u.idx = idx
  · have hut : u = tarefa :=
      eq_of_nodup_idx hnodup hu (findTarefa_mem hfind) (hui.trans (findTarefa_idx hfind).symm)
    subst hut
    simp [Function.comp, hui, schedView, hni, hnt, hnf]
  · simp [Function.comp, hui]

/-- The unfolding of one productive `propagar_atraso` call. -/
theorem propagarAtraso_succ_found {fuel : Nat} {st : SimSt} {idx aIni aTer : Int}
    {tarefa : Tarefa} (hv : idx ∉ st.visited)
    (hfind : findTarefa st.dfSim idx = some tarefa) :
    propagarAtraso (fuel + 1) st idx aIni aTer =
      (extrairIdsSucessorasSim tarefa.sucessoras).foldlM
        (propagarSucessorCom (propagarAtraso fuel) aIni aTer
          (max aIni aTer - min tarefa.folga (max aIni aTer)))
        (propagarUpdate st idx aIni aTer tarefa) := by
  rw [propagarAtraso, if_neg hv, hfind]

/-- Folding a schedule-view-preserving, well-formedness-respecting step
over a successor list succeeds and preserves the schedule view. -/
theorem foldlM_sched_exists (f : SimSt → SucRef → Option SimSt) :
    ∀ (l : List SucRef) (st0 : SimSt),
      (∀ st2 r, r ∈ l → st2.dfSim.map schedView = st0.dfSim.map schedView →
        bemFormado st2.dfSim →
        ∃ st3, f st2 r = some st3 ∧ st3.dfSim.map schedView = st2.dfSim.map schedView) →
      bemFormado st0.dfSim →
      ∃ st', List.foldlM f st0 l = some st' ∧
        st'.dfSim.map schedView = st0.dfSim.map schedView := by
  intro l
  induction l with
  | nil =>
    intro st0 _ _
    exact ⟨st0, by simp [List.foldlM_nil], rfl⟩
  | cons r rest ihl =>
    intro st0 hstep hb0
    obtain ⟨st1, h1, he1⟩ := hstep st0 r (List.mem_cons_self r rest) rfl hb0
    have hb1 : bemFormado st1.dfSim := bemFormado_transfer he1 hb0
    obtain ⟨st', h2, he2⟩ := ihl st1
      (fun st2 rr hrr he hb2 => hstep st2 rr (List.mem_cons_of_mem r hrr) (he.trans he1) hb2)
      hb1
    refine ⟨st', ?_, he2.trans he1⟩
    rw [List.foldlM_cons, h1]
    simpa using h2

/-- Zero-offset propagation over a well-formed dataset succeeds and
leaves the schedule view of the working copy unchanged. -/
theorem propagar_zero_spec :
    ∀ (fuel : Nat) (st : SimSt) (idx : Int), bemFormado st.dfSim →
      ∃ st', propagarAtraso fuel st idx 0 0 = some st' ∧
        st'.dfSim.map schedView = st.dfSim.map schedView := by
  intro fuel
  induction fuel with
  | zero =>
    intro st idx _
    exact ⟨st, by rw [propagarAtraso], rfl⟩
  | succ fuel ih =>
    intro st idx hb
    by_cases hv : idx ∈ st.visited
    · exact ⟨st, by rw [propagarAtraso, if_pos hv], rfl⟩
    · cases hfind : findTarefa st.dfSim idx with
      | none =>
        refine ⟨st, ?_, rfl⟩
        rw [propagarAtraso, if_neg hv, hfind]
      | some tarefa =>
        have htmem := findTarefa_mem hfind
        obtain ⟨hfolga, hdur, hdnn, hrefs⟩ := hb.2 tarefa htmem
        rw [propagarAtraso_succ_found hv hfind]
        have hprop0 : max (0 : Int) 0 - min tarefa.folga (max 0 0) = 0 := by
          simp [min_eq_right hfolga]
        rw [hprop0]
        have hupd_sched :
            (propagarUpdate st idx 0 0 tarefa).dfSim.map schedView =
              st.dfSim.map schedView := by
          apply updateTarefa_schedView hb.1 hfind
          · simp
          · simp only [novoTerminoCalc]
            rw [if_neg (by omega)]
            omega
          · simp [novaFolgaCalc, min_eq_right hfolga]
        have hbupd : bemFormado (propagarUpdate st idx 0 0 tarefa).dfSim :=
          bemFormado_transfer hupd_sched hb
        have hstep : ∀ st2 r, r ∈ extrairIdsSucessorasSim tarefa.sucessoras →
            st2.dfSim.map schedView = (propagarUpdate st idx 0 0 tarefa).dfSim.map schedView →
            bemFormado st2.dfSim →
            ∃ st3, propagarSucessorCom (propagarAtraso fuel) 0 0 0 st2 r = some st3 ∧
              st3.dfSim.map schedView = st2.dfSim.map schedView := by
          intro st2 r hr hsched2 hb2
          obtain ⟨hlag, hsf, hmemtgt⟩ := hrefs r hr
          have hmem2 : strToInt r.id ∈ st2.dfSim.map (fun t => t.idx) := by
            rw [schedView_map_idx (hsched2.trans hupd_sched)]
            exact hmemtgt
          unfold propagarSucessorCom
          by_cases hFS : r.relType = "FS"
          · rw [if_pos hFS, max_eq_left (by omega)]
            exact ih st2 (strToInt r.id) hb2
          · rw [if_neg hFS]
            by_cases hSS : r.relType = "SS"
            · rw [if_pos hSS, max_eq_left (by omega)]
              exact ih st2 (strToInt r.id) hb2
            · rw [if_neg hSS]
              by_cases hFF : r.relType = "FF"
              · rw [if_pos hFF]
                obtain ⟨sucT, hfT⟩ :=
                  Option.isSome_iff_exists.mp (findTarefa_isSome_iff.mpr hmem2)
                have hdT := (hb2.2 sucT (findTarefa_mem hfT)).2.2.1
                have e1 : max (0 : Int) (0 + r.lag - sucT.duracao) = 0 :=
                  max_eq_left (by omega)
                have e2 : max (0 : Int) (0 + r.lag) = 0 := max_eq_left (by omega)
                simp only [hfT, e1, e2]
                exact ih st2 (strToInt r.id) hb2
              · rw [if_neg hFF, if_neg hsf]
                exact ⟨st2, rfl, rfl⟩
        obtain ⟨st', hfold, hsched⟩ :=
          foldlM_sched_exists _ (extrairIdsSucessorasSim tarefa.sucessoras)
            (propagarUpdate st idx 0 0 tarefa) hstep hbupd
        exact ⟨st', hfold, hsched.trans hupd_sched⟩

/-- C2 counterexample: with a positive FS lag out of the seed, a
zero-day delay still shifts the successor — task B moves from (7, 10)
to (9, 12) and the reported project finish becomes 12 instead of the
unmodified maximum 10. -/
theorem c2_zero_delay_counterexample :
    (simularAtrasoCaminhoCritico dsC2x 1 0).2.2 = some 12 ∧
    maxTermino dsC2x.rows = some 10 ∧
    (simularAtrasoSt dsC2x 1 0).bind (fun st => findTarefa st.dfSim 2) =
      some ⟨2, "B", 9, 12, 3, 0, some "", "Sim"⟩ ∧
    findTarefa dsC2x.rows 2 = some ⟨2, "B", 7, 10, 3, 0, some "", "Sim"⟩ ∧
    some (12 : Int) ≠ some (10 : Int) := by
  refine ⟨by decide, by decide, by decide, by decide, by decide⟩

/-- C2 as amended: over a well-formed dataset (unique indices,
non-negative slack and duration, `finish - start = duration`, and every
successor reference resolvable, non-SF and with non-positive lag), a
zero-day simulation of any present task keeps every row's schedule
fields and returns the unmodified dataset's maximal finish date. -/
theorem c2_zero_delay_amended (ds : Dataset) (tarefaIdx : Int)
    (hbf : bemFormado ds.rows)
    (hcols : ∀ c ∈ colunasDesejadas, c ∈ ds.cols)
    (hseed : (findTarefa ds.rows tarefaIdx).isSome = true) :
    (∃ st, simularAtrasoSt ds tarefaIdx 0 = some st ∧
      st.dfSim.map schedView = ds.rows.map schedView) ∧
    (simularAtrasoCaminhoCritico ds tarefaIdx 0).2.2 = maxTermino ds.rows := by
  obtain ⟨st, hst, hsched⟩ :=
    propagar_zero_spec (ds.rows.length + 1) ⟨ds.rows, ds.rows, [], []⟩ tarefaIdx hbf
  have hst' : simularAtrasoSt ds tarefaIdx 0 = some st := hst
  refine ⟨⟨st, hst', hsched⟩, ?_⟩
  have hall : colunasDesejadas.all (fun c => decide (c ∈ ds.cols)) = true := by
    rw [List.all_eq_true]
    intro c hc
    simpa using hcols c hc
  unfold simularAtrasoCaminhoCritico
  rw [if_pos hall, if_pos hseed, hst']
  exact maxTermino_congr hsched

/-- C2 witness: the amended statement on a concrete well-formed
dataset. -/
theorem c2_zero_delay_amended_witness :
    (simularAtrasoCaminhoCritico dsC2w 1 0).2.2 = maxTermino dsC2w.rows ∧
    (simularAtrasoSt dsC2w 1 0).map (fun st => st.dfSim.map schedView) =
      some (dsC2w.rows.map schedView) := by
  obtain ⟨⟨st, hst, hsched⟩, hmax⟩ :=
    c2_zero_delay_amended dsC2w 1 (by decide) (by decide) (by decide)
  refine ⟨hmax, ?_⟩
  rw [hst]
  simpa using hsched

/-- C3.  Parser round-trip: the reference string `"12FS+3;15SS-2,20"`
parses to exactly the triples (12, FS, +3), (15, SS, -2), (20, FS, 0) in
order — the type defaulting to FS and the lag to 0 when absent — and the
empty and the null string both parse to the empty list. -/
theorem c3_parser_roundtrip :
    extrairIdsSucessorasSim (some "12FS+3;15SS-2,20") =
      [⟨"12", "FS", 3⟩, ⟨"15", "SS", -2⟩, ⟨"20", "FS", 0⟩] ∧
    (extrairIdsSucessorasSim (some "12FS+3;15SS-2,20")).map (fun r => strToInt r.id) =
      [12, 15, 20] ∧
    extrairIdsSucessorasSim none = [] ∧
    extrairIdsSucessorasSim (some "") = [] := by
  refine ⟨by decide, by decide, rfl, by decide⟩

/-- C8.  Failure policy: when a required column is missing or the seed
index is not in the dataframe, the simulation returns the empty impact
table, the empty critical-path table and no finish date. -/
theorem c8_failure_policy (ds : Dataset) (tarefaIdx diasAtraso : Int)
    (h : (∃ c ∈ colunasDesejadas, c ∉ ds.cols) ∨ findTarefa ds.rows tarefaIdx = none) :
    simularAtrasoCaminhoCritico ds tarefaIdx diasAtraso = ([], [], none) := by
  unfold simularAtrasoCaminhoCritico
  rcases h with ⟨c, hc, hnc⟩ | h
  · have : ¬ (colunasDesejadas.all (fun c => decide (c ∈ ds.cols)) = true) := by
      rw [List.all_eq_true]
      intro hall
      exact hnc (by simpa using hall c hc)
    simp [this]
  · rw [h]
    by_cases hcols : colunasDesejadas.all (fun c => decide (c ∈ ds.cols)) = true
    · simp [hcols]
    · simp [hcols]

/-- C8 witness: the empty triple at a concrete dataset and a missing
seed index. -/
theorem c8_failure_policy_witness :
    simularAtrasoCaminhoCritico dsC8w 99 5 = ([], [], none) :=
  c8_failure_policy dsC8w 99 5 (Or.inr (by decide))

/-- C4 counterexample: on the token `"12FS+3"` the tracer's extractor
keeps every digit of the token (yielding id 123), while the simulator's
parser takes the leading digits (yielding id 12), so the two components
do not extract the same successor-id sets. -/
theorem c4_parser_contract_counterexample :
    (extrairIdsSucessorasTracer (some "12FS+3")).map strToInt = [123] ∧
    (extrairIdsSucessorasSim (some "12FS+3")).map (fun r => strToInt r.id) = [12] ∧
    ([123] : List Int) ≠ [12] := by
  refine ⟨by decide, by decide, by decide⟩

/-- C4 as amended: on every reference string each of whose tokens has
all its digits inside the leading digit run of the stripped token (in
particular no lag digits and no digits hidden in annotations), the
tracer extracts exactly the parser's id list. -/
theorem c4_parser_contract_amended (s : String)
    (h : ∀ tok ∈ splitRefs s.data [],
      tok.filter Char.isDigit = (stripChars tok).takeWhile Char.isDigit) :
    extrairIdsSucessorasTracer (some s) = (extrairIdsSucessorasSim (some s)).map SucRef.id := by
  unfold extrairIdsSucessorasTracer extrairIdsSucessorasSim
  by_cases hs : s = ""
  · simp [hs]
  · simp only [hs, if_false]
    rw [List.map_filterMap]
    apply List.filterMap_congr
    intro tok htok
    have hd := h tok htok
    unfold matchToken
    by_cases hlead : (stripChars tok).takeWhile Char.isDigit = []
    · rw [hd, hlead]
      simp [hlead]
    · rw [hd]
      simp only [hlead, if_false]
      rfl

/-- C4 witness: a lag-free reference string on which both extractors
agree. -/
theorem c4_parser_contract_amended_witness :
    extrairIdsSucessorasTracer (some "10;11SS") =
      (extrairIdsSucessorasSim (some "10;11SS")).map SucRef.id :=
  c4_parser_contract_amended "10;11SS" (by decide)

/-- C5 counterexample: in a two-task successor cycle the trace from
task 1 appends three names — the start task repeats because the visited
set holds the start key as an integer but later hops as strings — so it
does not stop within `|tasks| = 2` name-appending steps. -/
theorem c5_trace_steps_counterexample :
    rastrearCadeia dsC5x 1 = some (["T1", "T2", "T1"], 17) ∧
    dsC5x.rows.length = 2 ∧ ¬ (3 ≤ 2) := by
  refine ⟨by decide, rfl, by decide⟩

/-- Unfolding of the trace loop when `current_idx` is `None`. -/
theorem rastrearAux_none (rows : List Tarefa) (fuel : Nat)
    (visited : List TKey) (cadeia : List String) (folga : Int) :
    rastrearAux rows (fuel + 1) none visited cadeia folga = some (cadeia, folga) := by
  rw [rastrearAux]

/-- Unfolding of one iteration of the trace loop. -/
theorem rastrearAux_succ (rows : List Tarefa) (fuel : Nat) (k : TKey)
    (visited : List TKey) (cadeia : List String) (folga : Int) :
    rastrearAux rows (fuel + 1) (some k) visited cadeia folga =
      if ¬ k.truthy ∨ k ∈ visited then some (cadeia, folga)
      else
        match findTarefa rows k.toIdx with
        | none => some (cadeia, folga)
        | some t =>
          if t.critica = "Sim" then some (cadeia ++ [t.nome], folga + t.folga)
          else rastrearAux rows fuel (gNext rows t) (visited ++ [k])
            (cadeia ++ [t.nome]) (folga + t.folga) := by
  rw [rastrearAux]

/-- The trace loop reaches a genuine exit whenever the fuel exceeds the
number of unvisited indices by 2, and appends at most one name more
than that number: each continuing iteration consumes a fresh index,
except that one repeated index (reachable only because the same task
can be denoted by the integer start key and a string key) ends the walk
right after its second visit. -/
theorem rastrearAux_total (rows : List Tarefa) :
    ∀ (fuel : Nat) (cur : Option TKey) (visited : List TKey)
      (cadeia : List String) (folga : Int),
      trilhaInv rows visited cur →
      (chavesRestantes rows visited).card + 2 ≤ fuel →
      ∃ out, rastrearAux rows fuel cur visited cadeia folga = some out ∧
        out.1.length ≤ cadeia.length + (chavesRestantes rows visited).card + 1 := by
  intro fuel
  induction fuel with
  | zero =>
    intro cur visited cadeia folga _ hfuel
    omega
  | succ fuel ih =>
    intro cur visited cadeia folga hinv hfuel
    cases cur with
    | none =>
      refine ⟨(cadeia, folga), rastrearAux_none rows fuel visited cadeia folga, ?_⟩
      simp only []
      omega
    | some k =>
      by_cases hg : ¬ k.truthy ∨ k ∈ visited
      · refine ⟨(cadeia, folga), ?_, by simp only []; omega⟩
        rw [rastrearAux_succ, if_pos hg]
      · cases hfind : findTarefa rows k.toIdx with
        | none =>
          refine ⟨(cadeia, folga), ?_, by simp only []; omega⟩
          rw [rastrearAux_succ, if_neg hg]
          simp only [hfind]
        | some t =>
          by_cases hcrit : t.critica = "Sim"
          · refine ⟨(cadeia ++ [t.nome], folga + t.folga), ?_, ?_⟩
            · rw [rastrearAux_succ, if_neg hg]
              simp only [hfind]
              rw [if_pos hcrit]
            · simp only [List.length_append, List.length_singleton]
              omega
          · have hinv' : trilhaInv rows (visited ++ [k]) (gNext rows t) := by
              intro k2 hk2
              rcases List.mem_append.mp hk2 with hk2v | hk2new
              · obtain ⟨t2, hf2, hnext2⟩ := hinv k2 hk2v
                refine ⟨t2, hf2, ?_⟩
                rcases hnext2 with h | h | ⟨k', hk', hk'v⟩
                · exact Or.inl h
                · exact Or.inr (Or.inr ⟨k, h,
                    List.mem_append.mpr (Or.inr (List.mem_singleton.mpr rfl))⟩)
                · exact Or.inr (Or.inr ⟨k', hk', List.mem_append.mpr (Or.inl hk'v)⟩)
              · have hk2k : k2 = k := List.mem_singleton.mp hk2new
                subst hk2k
                exact ⟨t, hfind, Or.inr (Or.inl rfl)⟩
            by_cases hfresh : k.toIdx ∈ visited.map TKey.toIdx
            · -- a repeated index: the walk ends right after this visit
              obtain ⟨kc, hkc, hkcv⟩ := List.mem_map.mp hfresh
              obtain ⟨tc, htcf, htcn⟩ := hinv kc hkc
              rw [hkcv, hfind] at htcf
              cases htcf
              have hfuel1 : 1 ≤ fuel := by omega
              obtain ⟨fuel2, rfl⟩ : ∃ f2, fuel = f2 + 1 :=
                ⟨fuel - 1, by omega⟩
              refine ⟨(cadeia ++ [t.nome], folga + t.folga), ?_, ?_⟩
              · rw [rastrearAux_succ, if_neg hg]
                simp only [hfind]
                rw [if_neg hcrit]
                rcases htcn with hnone | hcur | ⟨k', hk', hk'v⟩
                · rw [hnone]
                  exact rastrearAux_none rows fuel2 _ _ _
                · rw [hcur, rastrearAux_succ, if_pos (Or.inr
                    (List.mem_append.mpr (Or.inr (List.mem_singleton.mpr rfl))))]
                · rw [hk', rastrearAux_succ, if_pos (Or.inr
                    (List.mem_append.mpr (Or.inl hk'v)))]
              · simp only [List.length_append, List.length_singleton]
                omega
            · -- a fresh index: the measure decreases
              have hkmem : k.toIdx ∈ (rows.map (fun u => u.idx)).toFinset :=
                List.mem_toFinset.mpr
                  (List.mem_map.mpr ⟨t, findTarefa_mem hfind, findTarefa_idx hfind⟩)
              have hkrest : k.toIdx ∈ chavesRestantes rows visited :=
                Finset.mem_sdiff.mpr ⟨hkmem, fun hc => hfresh (List.mem_toFinset.mp hc)⟩
              have herase : chavesRestantes rows (visited ++ [k]) =
                  (chavesRestantes rows visited).erase k.toIdx := by
                unfold chavesRestantes
                rw [List.map_append, List.toFinset_append, Finset.erase_eq, sdiff_sdiff]
                simp
              have hcard' : (chavesRestantes rows (visited ++ [k])).card =
                  (chavesRestantes rows visited).card - 1 := by
                rw [herase, Finset.card_erase_of_mem hkrest]
              have hpos : 1 ≤ (chavesRestantes rows visited).card :=
                Finset.card_pos.mpr ⟨k.toIdx, hkrest⟩
              obtain ⟨out, hout, hlen⟩ := ih (gNext rows t) (visited ++ [k])
                (cadeia ++ [t.nome]) (folga + t.folga) hinv' (by omega)
              refine ⟨out, ?_, ?_⟩
              · rw [rastrearAux_succ, if_neg hg]
                simp only [hfind]
                rw [if_neg hcrit]
                exact hout
              · simp only [List.length_append, List.length_singleton] at hlen
                omega

/-- C5 as amended: the trace always reaches a genuine exit, appending
at most `|tasks| + 1` names (the original `|tasks|` bound fails because
the start task can be revisited once through its string key). -/
theorem c5_trace_termination_amended (df : Dataset) (tarefaIdx : Int) :
    ∃ out, rastrearCadeia df tarefaIdx = some out ∧
      out.1.length ≤ df.rows.length + 1 := by
  have hinv : trilhaInv df.rows [] (some (TKey.ival tarefaIdx)) := by
    intro k hk
    simp at hk
  have hcard : (chavesRestantes df.rows []).card ≤ df.rows.length := by
    unfold chavesRestantes
    simp only [List.map_nil, List.toFinset_nil, Finset.sdiff_empty]
    calc (df.rows.map (fun u => u.idx)).toFinset.card
        ≤ (df.rows.map (fun u => u.idx)).length := List.toFinset_card_le _
      _ = df.rows.length := List.length_map _ _
  obtain ⟨out, hout, hlen⟩ := rastrearAux_total df.rows (df.rows.length + 2)
    (some (TKey.ival tarefaIdx)) [] [] 0 hinv (by omega)
  refine ⟨out, hout, ?_⟩
  simp only [List.length_nil] at hlen
  omega

/-- C9 counterexample: a critical task stored at dataframe index 0 is
never entered by the trace loop (`while current_idx` is falsy on the
integer 0), so its trace is the empty chain with total slack 0 instead
of the one-element chain with its own slack. -/
theorem c9_critical_trace_counterexample :
    rastrearCadeia dsC9x 0 = some ([], 0) ∧
    findTarefa dsC9x.rows 0 = some ⟨0, "Raiz", 0, 3, 3, 2, some "", "Sim"⟩ ∧
    some (([] : List String), (0 : Int)) ≠ some (["Raiz"], (2 : Int)) := by
  refine ⟨by decide, by decide, by decide⟩

/-- C9 as amended: for every task present in the dataset that is marked
critical and whose index is nonzero (truthy), the trace is the
one-element chain of its name with total slack equal to its slack. -/
theorem c9_critical_trace_amended (df : Dataset) (tarefaIdx : Int) (t : Tarefa)
    (hfind : findTarefa df.rows tarefaIdx = some t)
    (hcrit : t.critica = "Sim") (hidx : tarefaIdx ≠ 0) :
    rastrearCadeia df tarefaIdx = some ([t.nome], t.folga) := by
  unfold rastrearCadeia
  have hfuel : df.rows.length + 2 = (df.rows.length + 1) + 1 := rfl
  rw [hfuel]
  unfold rastrearAux
  simp [TKey.truthy, TKey.toIdx, hidx, hfind, hcrit]

/-- C9 witness: the amended statement at a concrete critical task with
index 3. -/
theorem c9_critical_trace_amended_witness :
    rastrearCadeia dsC9w 3 = some (["Marco"], 0) :=
  c9_critical_trace_amended dsC9w 3 ⟨3, "Marco", 0, 6, 6, 0, some "", "Sim"⟩
    (by decide) rfl (by decide)
